import Mathlib

/-!
# masher-bot: the hot-potato game interpreter and its timing state

A shallow embedding of `main.go`.  Go strings are lists of code points, the
process-wide `state` variable is passed explicitly, `time.Duration` is a
64-bit two's-complement integer (an `Int` wrapped after every arithmetic
operation), outgoing chat messages and the reaction delay are collected in a
list of actions, and a run-time panic is the result `none`.
-/

namespace MasherBot

/-! ## Strings -/

/-- A Go string, read as its sequence of code points. -/
abbrev Str := List Char

/-- The rune-wise case tables `unicode.ToUpper` and `unicode.ToLower` of the Go
standard library, which `strings.ToUpper` and `strings.ToLower` apply to every
code point.  They are library data and are taken as a parameter. -/
structure CaseTables where
  upper : Char → Char
  lower : Char → Char

/-- The case tables restricted to ASCII letters; on ASCII text they agree with
the Unicode tables. -/
def asciiCase : CaseTables := ⟨Char.toUpper, Char.toLower⟩

/-- Go `strings.ToUpper`. -/
def ToUpper (ct : CaseTables) (s : Str) : Str := s.map ct.upper

/-- Go `strings.ToLower`. -/
def ToLower (ct : CaseTables) (s : Str) : Str := s.map ct.lower

/-- Go `strings.Trim(s, cutset)`: drop the leading and the trailing code points
that occur in `cutset`. -/
def Trim (s cutset : Str) : Str :=
  (((s.dropWhile fun c => cutset.contains c).reverse).dropWhile
    fun c => cutset.contains c).reverse

/-- Go `strings.Split(s, sep)` for a separator of one code point: the pieces
between consecutive separators, one more piece than there are separators. -/
def Split : Str → Char → List Str
  | [], _ => [[]]
  | c :: cs, sep =>
    if c = sep then [] :: Split cs sep
    else
      match Split cs sep with
      | piece :: pieces => (c :: piece) :: pieces
      | [] => [[c]]

/-! ## The regular expressions

Each compiled pattern is modelled by the function that
`FindStringSubmatch` computes on it: `none` when the returned slice is empty
(no match), `some g` when the pattern matches and `g` is capture group 1.
In Go's syntax `.` matches every code point but the line feed, and without the
`m` flag `^` and `$` match only at the two ends of the text. -/

/-- No code point of `s` is a line feed, so `.*` can run over all of `s`. -/
def noNewline (s : Str) : Bool := s.all fun c => c != '\n'

/-- The matcher of `^pre(.+)suf$` for literal `pre` and `suf`: the anchors fix
the group to what lies between the two literals. -/
def anchoredGroup (pre suf text : Str) : Option Str :=
  if pre.isPrefixOf text then
    let rest := text.drop pre.length
    if suf.isSuffixOf rest then
      let g := rest.take (rest.length - suf.length)
      if g ≠ [] ∧ noNewline g = true then some g else none
    else none
  else none

/-- The pattern `^the players are (.*)$`. -/
def playerRegex (text : Str) : Option Str :=
  let pre := "the players are ".toList
  if pre.isPrefixOf text then
    let g := text.drop pre.length
    if noNewline g = true then some g else none
  else none

/-- The pattern `^<@(.+)>$`. -/
def userRegex (text : Str) : Option Str :=
  anchoredGroup "<@".toList ">".toList text

/-- The pattern `^<@(.+)> has the potato$`. -/
def possessionRegex (text : Str) : Option Str :=
  anchoredGroup "<@".toList "> has the potato".toList text

/-- The pattern `^<@(.+)> is the winner!$`. -/
def endingRegex (text : Str) : Option Str :=
  anchoredGroup "<@".toList "> is the winner!".toList text

/-- Cut `s` at the last occurrence of `sep`: the part before it and the part
after it. -/
def splitLast (sep : Str) : Str → Option (Str × Str)
  | [] => none
  | c :: cs =>
    match splitLast sep cs with
    | some (before, after) => some (c :: before, after)
    | none =>
      if sep.isPrefixOf (c :: cs) then some ([], (c :: cs).drop sep.length)
      else none

/-- The pattern `^naughty <@(.+)>, .*$`.  The group is greedy: it takes at
least one code point and then runs up to the last `>, ` of the text. -/
def penaltyRegex (text : Str) : Option Str :=
  let pre := "naughty <@".toList
  if pre.isPrefixOf text then
    match text.drop pre.length with
    | [] => none
    | c :: cs =>
      if noNewline (c :: cs) = true then
        match splitLast ">, ".toList cs with
        | some (before, _) => some (c :: before)
        | none => none
      else none
  else none

/-- The character class `[\d\.]`: an ASCII digit or a full stop. -/
def isDigitOrDot (c : Char) : Bool := c.isDigit || c == '.'

/-- The pattern `hot potato starting in [\d\.]+ seconds - message .*` tried at
the start of `s`.  The literal after the class begins with a blank, which is
not in the class, so the class must take the whole run of digits and dots. -/
def gameStartingAt (s : Str) : Bool :=
  let pre := "hot potato starting in ".toList
  if pre.isPrefixOf s then
    let rest := s.drop pre.length
    !(rest.takeWhile isDigitOrDot).isEmpty &&
      " seconds - message ".toList.isPrefixOf (rest.dropWhile isDigitOrDot)
  else false

/-- Whether the unanchored pattern matches at some position of `s`. -/
def matchAnywhere (p : Str → Bool) : Str → Bool
  | [] => p []
  | c :: cs => p (c :: cs) || matchAnywhere p cs

/-! ## The data model -/

/-- Go `time.Duration` is an `int64`: the value of `x` after wrap-around. -/
def wrap64 (x : Int) : Int :=
  (x + 9223372036854775808) % 18446744073709551616 - 9223372036854775808

/-- The values an `int64` can hold. -/
def inInt64 (x : Int) : Prop :=
  -9223372036854775808 ≤ x ∧ x ≤ 9223372036854775807

instance (x : Int) : Decidable (inInt64 x) := by
  unfold inInt64
  infer_instance

/-- The struct `GameState`.  A nil `Players` slice is `none`. -/
structure GameState where
  JoinNext : Bool
  AlwaysJoin : Bool
  Players : Option (List Str)
  WaitTime : Int
  MinWaitTime : Int
  HasPosession : Bool
  deriving DecidableEq, Repr

/-- The struct `MessageDetails`. -/
structure MessageDetails where
  msg : Str
  channel : Str
  sender : Str
  target : Str
  deriving DecidableEq, Repr

def DEFAULT_WAIT_TIME : Int := 3000
def DEFAULT_MIN_WAIT_TIME : Int := 1000
def PENALTY_INCREASE : Int := 500
def BETWEEN_ROUND_ADJUSTMENT : Int := 750

/-- The initial value of the package variable `state`. -/
def initState : GameState :=
  { JoinNext := false, AlwaysJoin := false, Players := none,
    WaitTime := DEFAULT_WAIT_TIME, MinWaitTime := DEFAULT_MIN_WAIT_TIME,
    HasPosession := false }

/-! ## Classification and parsing -/

def isPrivateMessage (channel : Str) : Bool :=
  "D".toList.isPrefixOf channel

def isGameStarting (text : Str) : Bool :=
  matchAnywhere gameStartingAt text

/-- The function `checkPossession`: the returned flag and the new state. -/
def checkPossession (ct : CaseTables) (text me : Str) (state : GameState) :
    Bool × GameState :=
  match possessionRegex text with
  | none => (false, state)
  | some g =>
    let passedToMe : Bool := decide (ToUpper ct g = me)
    let state1 :=
      if !passedToMe && state.HasPosession then
        let w := wrap64 (state.WaitTime - 250)
        if w < state.MinWaitTime then { state with WaitTime := state.MinWaitTime }
        else { state with WaitTime := w }
      else state
    (passedToMe, { state1 with HasPosession := passedToMe })

/-- The function `gameResult`. -/
def gameResult (ct : CaseTables) (text me : Str) : Int :=
  match endingRegex text with
  | none => 0
  | some g => if ToUpper ct g = me then 1 else -1

/-- The function `gotPenalty`: the returned flag and the new state. -/
def gotPenalty (ct : CaseTables) (text me : Str) (state : GameState) :
    Bool × GameState :=
  match penaltyRegex text with
  | none => (false, state)
  | some g =>
    let wasPenalized : Bool := decide (ToUpper ct g = me)
    if wasPenalized then
      let state1 := { state with MinWaitTime := wrap64 (state.WaitTime + 250) }
      (wasPenalized,
        { state1 with WaitTime := wrap64 (state1.WaitTime + PENALTY_INCREASE) })
    else (wasPenalized, state)

/-- The function `parseName`. -/
def parseName (ct : CaseTables) (name : Str) : Str :=
  let result := Trim name " ".toList
  match userRegex result with
  | some g => ToUpper ct g
  | none => result

/-- The loop of `parseNames`: `result[index] = parseName(name)` for the names
from position `index` on. -/
def parseNamesLoop (ct : CaseTables) : List Str → Nat → List Str → List Str
  | [], _, result => result
  | name :: names, index, result =>
    parseNamesLoop ct names (index + 1) (result.set index (parseName ct name))

/-- The function `parseNames`: a slice of `len(names)` empty strings is filled
position by position. -/
def parseNames (ct : CaseTables) (names : List Str) : List Str :=
  parseNamesLoop ct names 0 (List.replicate names.length [])

/-- The loop of `parsePlayers`: the names other than the target are appended
to `result` in turn. -/
def parsePlayersLoop (target : Str) : List Str → List Str → List Str
  | [], result => result
  | name :: names, result =>
    if name ≠ target then parsePlayersLoop target names (result ++ [name])
    else parsePlayersLoop target names result

/-- The function `parsePlayers`.  The result shares the array of `names`, and
is written behind the position that is read; a nil slice is `none`. -/
def parsePlayers (ct : CaseTables) (text : Str) (details : MessageDetails) :
    Option (List Str) :=
  match playerRegex text with
  | some g =>
    let names := parseNames ct (Split g ',')
    some (parsePlayersLoop details.target names [])
  | none => none

/-! ## The handlers -/

/-- What a handler does to the outside world, in the order it does it.
Console output is left out. -/
inductive Action where
  /-- The call `sendMessageReply(text, channel, rtm)`. -/
  | reply (text channel : Str)
  /-- The reply of the `status` command, whose text is `json.Marshal` of the
  state at that moment. -/
  | replyStatus (snapshot : GameState) (channel : Str)
  /-- The call `time.Sleep(d)`, with `d` in nanoseconds. -/
  | sleep (d : Int)
  deriving DecidableEq, Repr

/-- The method `ShouldJoin`: the returned flag and the new state. -/
def GameState.ShouldJoin (s : GameState) : Bool × GameState :=
  if !s.AlwaysJoin then
    let shouldJoin := s.JoinNext
    (shouldJoin, { s with JoinNext := false })
  else (s.AlwaysJoin, s)

/-- The elements of a slice, none for the nil slice. -/
def elems (players : Option (List Str)) : List Str := players.getD []

/-- Go `rand.Intn(n)`: a panic for `n <= 0`, otherwise some number below `n`;
`rnd` is the value the generator draws. -/
def Intn (rnd n : Nat) : Option Nat :=
  if n = 0 then none else some (rnd % n)

/-- The function `handlePrivateMessage`. -/
def handlePrivateMessage (ct : CaseTables) (details : MessageDetails)
    (state : GameState) : GameState × List Action :=
  let text := ToLower ct details.msg
  if text = "join next".toList then
    ({ state with JoinNext := true },
      [Action.reply "OK, I'll join the next game".toList details.channel])
  else if text = "join all".toList then
    ({ state with AlwaysJoin := true },
      [Action.reply "Sure, I'll join all the games".toList details.channel])
  else if text = "stop".toList then
    ({ state with JoinNext := false, AlwaysJoin := false },
      [Action.reply "Not playing anymore.  I'll take my ball and go home".toList
        details.channel])
  else if text = "test".toList then
    (state, [Action.reply ":thumbsup:".toList details.channel])
  else if text = "reset".toList then
    ({ state with AlwaysJoin := false, JoinNext := false, Players := none }, [])
  else if text = "status".toList then
    (state, [Action.replyStatus state details.channel])
  else
    (state,
      [Action.reply
        "Available commands are:  `join next`, `join all`, `stop`, `reset`, `test`".toList
        details.channel])

/-- The condition `checkPossession(text, me) || gotPenalty(text, me)`:
`gotPenalty` runs only when `checkPossession` returned false, on the state that
`checkPossession` left. -/
def possessionOrPenalty (ct : CaseTables) (text me : Str) (state : GameState) :
    Bool × GameState :=
  let (possessed, state1) := checkPossession ct text me state
  if possessed then (true, state1) else gotPenalty ct text me state1

/-- The function `handlePublicMessage`; `none` is the panic of `rand.Intn`.
`rnd` is the value the random generator draws when it is asked. -/
def handlePublicMessage (ct : CaseTables) (details : MessageDetails) (rnd : Nat)
    (state : GameState) : Option (GameState × List Action) :=
  let text := ToLower ct details.msg
  if isGameStarting text then
    let (join, state1) := state.ShouldJoin
    if join then
      some ({ state1 with WaitTime := DEFAULT_WAIT_TIME,
                          MinWaitTime := DEFAULT_MIN_WAIT_TIME },
        [Action.reply "join".toList details.channel])
    else some (state1, [])
  else
    match parsePlayers ct text details with
    | some players =>
      let state1 := { state with Players := some players }
      if state1.MinWaitTime < DEFAULT_MIN_WAIT_TIME - BETWEEN_ROUND_ADJUSTMENT then
        some ({ state1 with MinWaitTime := DEFAULT_MIN_WAIT_TIME }, [])
      else
        some ({ state1 with
          MinWaitTime := wrap64 (state1.MinWaitTime - BETWEEN_ROUND_ADJUSTMENT) }, [])
    | none =>
      let (act, state2) := possessionOrPenalty ct text details.target state
      if act then
        match Intn rnd (elems state2.Players).length with
        | none => none
        | some nextPlayer =>
          some (state2,
            [Action.sleep (wrap64 (state2.WaitTime * 1000000)),
             Action.reply
              ("pass to <@".toList ++ (elems state2.Players).getD nextPlayer [] ++
                ">".toList)
              details.channel])
      else
        let result := gameResult ct text details.target
        if result ≠ 0 then
          let out :=
            if result = 1 then Action.reply "Woo hoo! :tada:".toList details.channel
            else Action.reply "Awe man! :cry:".toList details.channel
          some ({ state2 with Players := none }, [out])
        else some (state2, [])

/-- The fields of `slack.MessageEvent` that the bot reads. -/
structure MessageEvent where
  Text : Str
  Channel : Str
  User : Str
  deriving DecidableEq, Repr

/-- The function `handleMessageEvent`; `selfId` is `rtm.GetInfo().User.ID`. -/
def handleMessageEvent (ct : CaseTables) (selfId : Str) (event : MessageEvent)
    (rnd : Nat) (state : GameState) : Option (GameState × List Action) :=
  let details : MessageDetails := ⟨event.Text, event.Channel, event.User, selfId⟩
  if isPrivateMessage details.channel then
    some (handlePrivateMessage ct details state)
  else handlePublicMessage ct details rnd state

/-- The message loop of `main` over the events that arrive, each with the value
the random generator would draw for it: the state after the last event, or
`none` when a handler panicked on the way. -/
def runEvents (ct : CaseTables) (selfId : Str) :
    List (MessageEvent × Nat) → GameState → Option GameState
  | [], state => some state
  | (event, rnd) :: rest, state =>
    match handleMessageEvent ct selfId event rnd state with
    | none => none
    | some (state1, _) => runEvents ct selfId rest state1


/-! ## Inputs and wordings that the theorems refer to -/

/-- A message in the public channel `C1`, sent by the game master `U9`; the
random generator draws 0. -/
def publicEvent (text : String) : MessageEvent × Nat :=
  (⟨text.toList, "C1".toList, "U9".toList⟩, 0)

/-- The bot `ME` sees three roster announcements and, between the second and
the third, takes the potato and passes it on nine times. -/
def threeRounds : List (MessageEvent × Nat) :=
  [publicEvent "the players are <@a>, <@b>",
   publicEvent "the players are <@a>, <@b>"] ++
  (List.replicate 9
    [publicEvent "<@me> has the potato", publicEvent "<@a> has the potato"]).flatten ++
  [publicEvent "the players are <@a>, <@b>"]

/-- The wording of the specification for the trimming of a segment: all
surrounding whitespace goes, not the blank alone. -/
def trimWhitespace (s : Str) : Str :=
  (((s.dropWhile Char.isWhitespace).reverse).dropWhile Char.isWhitespace).reverse

/-- The wording of the specification for one entry of `parseNames`: the
upper-cased identifier of a mention, and otherwise the upper-cased trimmed
segment. -/
def specName (ct : CaseTables) (segment : Str) : Str :=
  match userRegex (trimWhitespace segment) with
  | some g => ToUpper ct g
  | none => ToUpper ct (trimWhitespace segment)

/-- The penalty events of a run of messages, one call of `gotPenalty` each. -/
def penalties (ct : CaseTables) (me : Str) : List Str → GameState → GameState
  | [], state => state
  | text :: texts, state => penalties ct me texts (gotPenalty ct text me state).2

/-- The method `ShouldJoin` called `n` times in a row: the flags it returned,
in order, and the state it left. -/
def shouldJoinTimes : Nat → GameState → List Bool × GameState
  | 0, s => ([], s)
  | n + 1, s =>
    let (flag, s1) := s.ShouldJoin
    let (flags, s2) := shouldJoinTimes n s1
    (flag :: flags, s2)

/-- A message in the direct channel `D7`, sent by the owner `U1`. -/
def privateEvent (text : String) : MessageEvent × Nat :=
  (⟨text.toList, "D7".toList, "U1".toList⟩, 0)

/-- The bot `ME` is told to join the next game, plays the round that follows
and then watches a second round without joining it. -/
def twoRounds : List (MessageEvent × Nat) :=
  [privateEvent "join next",
   publicEvent "hot potato starting in 10 seconds - message join to play",
   publicEvent "the players are <@a>, <@me>",
   publicEvent "<@a> is the winner!",
   publicEvent "hot potato starting in 10 seconds - message join to play",
   publicEvent "the players are <@a>, <@b>"]

/-- The wording of the specification for the comparison of identifiers,
equality up to letter case: the two are equal once upper-cased. -/
def sameUpToCase (ct : CaseTables) (a b : Str) : Prop :=
  ToUpper ct a = ToUpper ct b

/-! ## Lists and strings -/

theorem noNewline_iff (s : Str) : noNewline s = true ↔ '\n' ∉ s := by
  unfold noNewline
  rw [List.all_eq_true]
  constructor
  · intro h hmem
    have := h _ hmem
    simp at this
  · intro h c hc
    have : c ≠ '\n' := fun e => h (e ▸ hc)
    simpa using this

theorem playerRegex_eq_some_iff (text g : Str) :
    playerRegex text = some g ↔
      text = "the players are ".toList ++ g ∧ '\n' ∉ g := by
  unfold playerRegex
  simp only []
  by_cases hp : "the players are ".toList.isPrefixOf text = true
  · rw [if_pos hp]
    have hp2 := List.prefix_iff_eq_append.mp (List.isPrefixOf_iff_prefix.mp hp)
    by_cases hn : noNewline (List.drop "the players are ".toList.length text) = true
    · rw [if_pos hn]
      constructor
      · intro h
        have h1 : List.drop "the players are ".toList.length text = g := by simpa using h
        rw [← h1]
        exact ⟨hp2.symm, (noNewline_iff _).mp hn⟩
      · rintro ⟨h1, -⟩
        rw [h1, List.drop_left]
    · rw [if_neg hn]
      constructor
      · intro h; simp at h
      · rintro ⟨h1, h2⟩
        exfalso; apply hn
        rw [h1, List.drop_left]
        exact (noNewline_iff _).mpr h2
  · rw [if_neg hp]
    constructor
    · intro h; simp at h
    · rintro ⟨h1, -⟩
      exfalso; apply hp
      rw [h1]
      exact List.isPrefixOf_iff_prefix.mpr (List.prefix_append _ _)

theorem anchoredGroup_eq_some_iff (pre suf text g : Str) :
    anchoredGroup pre suf text = some g ↔
      text = pre ++ g ++ suf ∧ g ≠ [] ∧ '\n' ∉ g := by
  unfold anchoredGroup
  simp only []
  by_cases hp : pre.isPrefixOf text = true
  · rw [if_pos hp]
    have hp2 := List.prefix_iff_eq_append.mp (List.isPrefixOf_iff_prefix.mp hp)
    by_cases hs : suf.isSuffixOf (List.drop pre.length text) = true
    · rw [if_pos hs]
      have hs2 := List.suffix_iff_eq_append.mp (List.isSuffixOf_iff_suffix.mp hs)
      set rest := List.drop pre.length text with hrest
      set mid := List.take (rest.length - suf.length) rest with hmid
      have htext : text = pre ++ mid ++ suf := by
        rw [List.append_assoc, hs2, hp2]
      constructor
      · intro h
        split at h
        · rename_i hc
          have h1 : mid = g := by simpa using h
          rw [← h1]
          exact ⟨htext, hc.1, (noNewline_iff _).mp hc.2⟩
        · simp at h
      · rintro ⟨h1, h2, h3⟩
        have hmg : mid = g := by
          have : pre ++ mid ++ suf = pre ++ g ++ suf := by rw [← htext, ← h1]
          rw [List.append_assoc, List.append_assoc] at this
          exact List.append_cancel_right (List.append_cancel_left this)
        rw [hmg, if_pos ⟨h2, (noNewline_iff _).mpr h3⟩]
    · rw [if_neg hs]
      constructor
      · intro h; simp at h
      · rintro ⟨h1, -, -⟩
        exfalso; apply hs
        rw [h1, List.append_assoc, List.drop_left]
        exact List.isSuffixOf_iff_suffix.mpr (List.suffix_append _ _)
  · rw [if_neg hp]
    constructor
    · intro h; simp at h
    · rintro ⟨h1, -, -⟩
      exfalso; apply hp
      rw [h1, List.append_assoc]
      exact List.isPrefixOf_iff_prefix.mpr (List.prefix_append _ _)

theorem parsePlayersLoop_eq (target : Str) (names result : List Str) :
    parsePlayersLoop target names result =
      result ++ names.filter (fun n => decide (n ≠ target)) := by
  induction names generalizing result with
  | nil => simp [parsePlayersLoop]
  | cons n ns ih =>
    unfold parsePlayersLoop
    by_cases h : n = target <;> simp [h, ih]

theorem take_succ_set (p : Str) (result : List Str) (index : Nat)
    (h : index < result.length) :
    (result.set index p).take (index + 1) = result.take index ++ [p] := by
  induction result generalizing index with
  | nil => simp at h
  | cons r rs ih =>
    cases index with
    | zero => simp
    | succ k =>
      have hk : k < rs.length := by simpa using h
      simp [ih k hk]

theorem parseNamesLoop_eq (ct : CaseTables) (names : List Str) (index : Nat)
    (result : List Str) (h : index + names.length = result.length) :
    parseNamesLoop ct names index result =
      result.take index ++ names.map (parseName ct) := by
  induction names generalizing index result with
  | nil =>
    have : result.length ≤ index := by simp at h; omega
    simp [parseNamesLoop, List.take_of_length_le this]
  | cons n ns ih =>
    have hlt : index < result.length := by simp at h; omega
    unfold parseNamesLoop
    rw [ih (index + 1) (result.set index (parseName ct n)) (by simp at h ⊢; omega)]
    rw [take_succ_set _ _ _ hlt]
    simp

theorem parseNames_eq_map (ct : CaseTables) (names : List Str) :
    parseNames ct names = names.map (parseName ct) := by
  unfold parseNames
  rw [parseNamesLoop_eq ct names 0 _ (by simp)]
  simp

/-! ## The branches of the public handler -/

theorem handlePublicMessage_gameStarting (ct : CaseTables) (details : MessageDetails)
    (rnd : Nat) (s : GameState)
    (hg : isGameStarting (ToLower ct details.msg) = true) :
    handlePublicMessage ct details rnd s =
      if s.ShouldJoin.1 = true then
        some ({ s.ShouldJoin.2 with WaitTime := DEFAULT_WAIT_TIME,
                                    MinWaitTime := DEFAULT_MIN_WAIT_TIME },
          [Action.reply "join".toList details.channel])
      else some (s.ShouldJoin.2, []) := by
  unfold handlePublicMessage
  simp only [hg, if_true]

theorem handlePublicMessage_roster (ct : CaseTables) (details : MessageDetails)
    (rnd : Nat) (s : GameState) (players : List Str)
    (hg : isGameStarting (ToLower ct details.msg) = false)
    (hp : parsePlayers ct (ToLower ct details.msg) details = some players) :
    handlePublicMessage ct details rnd s =
      if s.MinWaitTime < DEFAULT_MIN_WAIT_TIME - BETWEEN_ROUND_ADJUSTMENT then
        some ({ s with Players := some players,
                       MinWaitTime := DEFAULT_MIN_WAIT_TIME }, [])
      else
        some ({ s with Players := some players,
                       MinWaitTime := wrap64 (s.MinWaitTime - BETWEEN_ROUND_ADJUSTMENT) },
          []) := by
  unfold handlePublicMessage
  simp only [hg, hp]
  rfl

theorem handlePublicMessage_other (ct : CaseTables) (details : MessageDetails)
    (rnd : Nat) (s : GameState)
    (hg : isGameStarting (ToLower ct details.msg) = false)
    (hp : parsePlayers ct (ToLower ct details.msg) details = none) :
    handlePublicMessage ct details rnd s =
      let r := possessionOrPenalty ct (ToLower ct details.msg) details.target s
      if r.1 = true then
        match Intn rnd (elems r.2.Players).length with
        | none => none
        | some nextPlayer =>
          some (r.2,
            [Action.sleep (wrap64 (r.2.WaitTime * 1000000)),
             Action.reply
              ("pass to <@".toList ++ (elems r.2.Players).getD nextPlayer [] ++
                ">".toList)
              details.channel])
      else if gameResult ct (ToLower ct details.msg) details.target ≠ 0 then
        some ({ r.2 with Players := none },
          [if gameResult ct (ToLower ct details.msg) details.target = 1 then
              Action.reply "Woo hoo! :tada:".toList details.channel
            else Action.reply "Awe man! :cry:".toList details.channel])
      else some (r.2, []) := by
  unfold handlePublicMessage
  simp only [hg, hp]
  cases possessionOrPenalty ct (ToLower ct details.msg) details.target s with
  | mk act st => rfl

/-! ## What the operations leave alone -/

theorem checkPossession_players (ct : CaseTables) (text me : Str) (s : GameState) :
    (checkPossession ct text me s).2.Players = s.Players := by
  unfold checkPossession
  split
  · rfl
  · simp only []
    split
    · split <;> rfl
    · rfl

theorem gotPenalty_players (ct : CaseTables) (text me : Str) (s : GameState) :
    (gotPenalty ct text me s).2.Players = s.Players := by
  unfold gotPenalty
  split
  · rfl
  · simp only []
    split <;> rfl

theorem possessionOrPenalty_players (ct : CaseTables) (text me : Str) (s : GameState) :
    (possessionOrPenalty ct text me s).2.Players = s.Players := by
  unfold possessionOrPenalty
  have hc := checkPossession_players ct text me s
  cases hcp : checkPossession ct text me s with
  | mk possessed st1 =>
    rw [hcp] at hc
    simp only [] at hc ⊢
    split
    · exact hc
    · rw [gotPenalty_players]; exact hc

theorem shouldJoin_players (s : GameState) : s.ShouldJoin.2.Players = s.Players := by
  unfold GameState.ShouldJoin
  split <;> rfl

theorem parsePlayers_eq_some_iff (ct : CaseTables) (text : Str)
    (details : MessageDetails) (players : List Str) :
    parsePlayers ct text details = some players ↔
      ∃ g, playerRegex text = some g ∧
        players = ((Split g ',').map (parseName ct)).filter
          (fun n => decide (n ≠ details.target)) := by
  unfold parsePlayers
  cases h : playerRegex text with
  | none => simp
  | some g =>
    simp only [parseNames_eq_map, parsePlayersLoop_eq, List.nil_append, Option.some.injEq]
    constructor
    · intro e; exact ⟨g, rfl, e.symm⟩
    · rintro ⟨g1, e1, e2⟩; rw [e2, e1]

theorem parsePlayers_not_mem (ct : CaseTables) (text : Str) (details : MessageDetails)
    (players : List Str) (h : parsePlayers ct text details = some players) :
    details.target ∉ players := by
  obtain ⟨g, -, e⟩ := (parsePlayers_eq_some_iff ct text details players).mp h
  rw [e]
  intro hmem
  have := (List.mem_filter.mp hmem).2
  simp at this

theorem handlePrivateMessage_players (ct : CaseTables) (details : MessageDetails)
    (s : GameState) :
    (handlePrivateMessage ct details s).1.Players = s.Players ∨
      (handlePrivateMessage ct details s).1.Players = none := by
  unfold handlePrivateMessage
  simp only []
  split_ifs <;> simp

theorem handlePublicMessage_players (ct : CaseTables) (details : MessageDetails)
    (rnd : Nat) (s s1 : GameState) (out : List Action)
    (h : handlePublicMessage ct details rnd s = some (s1, out)) :
    s1.Players = s.Players ∨ s1.Players = none ∨
      parsePlayers ct (ToLower ct details.msg) details = s1.Players := by
  cases hg : isGameStarting (ToLower ct details.msg) with
  | true =>
    rw [handlePublicMessage_gameStarting ct details rnd s hg] at h
    have hp := shouldJoin_players s
    split_ifs at h <;>
      (simp only [Option.some.injEq, Prod.mk.injEq] at h
       left; rw [← h.1]; exact hp)
  | false =>
    cases hpp : parsePlayers ct (ToLower ct details.msg) details with
    | some players =>
      rw [handlePublicMessage_roster ct details rnd s players hg hpp] at h
      split_ifs at h <;>
        (simp only [Option.some.injEq, Prod.mk.injEq] at h
         right; right; rw [← h.1])
    | none =>
      rw [handlePublicMessage_other ct details rnd s hg hpp] at h
      have hq := possessionOrPenalty_players ct (ToLower ct details.msg) details.target s
      simp only [] at h
      split_ifs at h
      · cases hi : Intn rnd (elems (possessionOrPenalty ct (ToLower ct details.msg)
            details.target s).2.Players).length with
        | none => rw [hi] at h; simp at h
        | some k =>
          rw [hi] at h
          simp only [Option.some.injEq, Prod.mk.injEq] at h
          left; rw [← h.1]; exact hq
      all_goals
        simp only [Option.some.injEq, Prod.mk.injEq] at h
        rw [← h.1]
        first
          | exact Or.inl hq
          | exact Or.inr (Or.inl rfl)

theorem handlePublicMessage_panics_of_empty_roster (ct : CaseTables)
    (details : MessageDetails) (rnd : Nat) (s : GameState)
    (hempty : elems s.Players = [])
    (hg : isGameStarting (ToLower ct details.msg) = false)
    (hp : parsePlayers ct (ToLower ct details.msg) details = none)
    (hact : (possessionOrPenalty ct (ToLower ct details.msg) details.target s).1 = true) :
    handlePublicMessage ct details rnd s = none := by
  rw [handlePublicMessage_other ct details rnd s hg hp]
  simp only [hact, if_true, possessionOrPenalty_players, hempty]
  rfl

theorem runEvents_players (ct : CaseTables) (selfId : Str)
    (events : List (MessageEvent × Nat)) (s s1 : GameState)
    (hs : selfId ∉ elems s.Players)
    (h : runEvents ct selfId events s = some s1) :
    selfId ∉ elems s1.Players := by
  induction events generalizing s with
  | nil =>
    simp only [runEvents, Option.some.injEq] at h
    rw [← h]; exact hs
  | cons e rest ih =>
    obtain ⟨event, rnd⟩ := e
    simp only [runEvents] at h
    cases hstep : handleMessageEvent ct selfId event rnd s with
    | none => rw [hstep] at h; simp at h
    | some r =>
      obtain ⟨s2, out⟩ := r
      rw [hstep] at h
      refine ih s2 ?_ h
      unfold handleMessageEvent at hstep
      simp only [] at hstep
      split_ifs at hstep
      · simp only [Option.some.injEq] at hstep
        have hpriv := handlePrivateMessage_players ct
          ⟨event.Text, event.Channel, event.User, selfId⟩ s
        rw [hstep] at hpriv
        rcases hpriv with e1 | e1
        · rw [e1]; exact hs
        · rw [e1]; simp [elems]
      · rcases handlePublicMessage_players ct _ rnd s s2 out hstep with e1 | e1 | e1
        · rw [e1]; exact hs
        · rw [e1]; simp [elems]
        · cases hpl : s2.Players with
          | none => simp [elems]
          | some players =>
            rw [hpl] at e1
            exact parsePlayers_not_mem ct _ _ players e1

theorem Split_spec (s : Str) (sep : Char) :
    Split s sep ≠ [] ∧ List.intercalate [sep] (Split s sep) = s ∧
      ∀ piece ∈ Split s sep, sep ∉ piece := by
  induction s with
  | nil => simp [Split, List.intercalate]
  | cons c cs ih =>
    obtain ⟨hne, hjoin, hmem⟩ := ih
    unfold Split
    by_cases hc : c = sep
    · rw [if_pos hc]
      refine ⟨by simp, ?_, ?_⟩
      · cases hsp : Split cs sep with
        | nil => exact absurd hsp hne
        | cons piece pieces =>
          rw [hsp] at hjoin
          rw [← hjoin, hc]
          simp [List.intercalate, List.intersperse]
      · intro piece hp
        rcases List.mem_cons.mp hp with e | hp2
        · rw [e]; simp
        · exact hmem piece hp2
    · rw [if_neg hc]
      cases hsp : Split cs sep with
      | nil => exact absurd hsp hne
      | cons piece pieces =>
        rw [hsp] at hjoin hmem
        refine ⟨by simp, ?_, ?_⟩
        · rw [← hjoin]
          cases pieces <;> simp [List.intercalate, List.intersperse]
        · intro q hq
          rcases List.mem_cons.mp hq with e | hq2
          · rw [e]
            intro hin
            rcases List.mem_cons.mp hin with e2 | hin2
            · exact hc e2.symm
            · exact hmem piece (List.mem_cons_self _ _) hin2
          · exact hmem q (List.mem_cons_of_mem _ hq2)

theorem splitLast_sound (sep : Str) (s a b : Str) (h : splitLast sep s = some (a, b)) :
    s = a ++ sep ++ b := by
  induction s generalizing a with
  | nil => simp [splitLast] at h
  | cons c cs ih =>
    unfold splitLast at h
    cases hr : splitLast sep cs with
    | some p =>
      obtain ⟨a1, b1⟩ := p
      rw [hr] at h
      simp only [Option.some.injEq, Prod.mk.injEq] at h
      obtain ⟨h1, h2⟩ := h
      subst h1 h2
      rw [ih a1 hr]
      simp
    | none =>
      rw [hr] at h
      simp only [] at h
      split_ifs at h with hp
      simp only [Option.some.injEq, Prod.mk.injEq] at h
      rw [← h.1, ← h.2]
      have := List.prefix_iff_eq_append.mp (List.isPrefixOf_iff_prefix.mp hp)
      simpa using this.symm

theorem splitLast_eq_none_iff (sep : Str) (hsep : sep ≠ []) (s : Str) :
    splitLast sep s = none ↔ ¬ sep <:+: s := by
  induction s with
  | nil =>
    simp only [splitLast, true_iff]
    intro h
    exact hsep (List.infix_nil.mp h)
  | cons c cs ih =>
    unfold splitLast
    rw [List.infix_cons_iff]
    cases hr : splitLast sep cs with
    | some p =>
      have : sep <:+: cs := by
        by_contra hc
        rw [ih.mpr hc] at hr
        simp at hr
      simp [this]
    | none =>
      have hni : ¬ sep <:+: cs := ih.mp hr
      simp only []
      by_cases hp : sep.isPrefixOf (c :: cs) = true
      · rw [if_pos hp]
        simp [List.isPrefixOf_iff_prefix.mp hp]
      · rw [if_neg hp]
        have : ¬ sep <+: c :: cs := fun h => hp (List.isPrefixOf_iff_prefix.mpr h)
        simp [this, hni]

theorem splitLast_last (sep : Str) (hsep : sep ≠ []) (s a b : Str)
    (h : splitLast sep s = some (a, b)) : ¬ sep <:+: sep.tail ++ b := by
  induction s generalizing a with
  | nil => simp [splitLast] at h
  | cons c cs ih =>
    unfold splitLast at h
    cases hr : splitLast sep cs with
    | some p =>
      obtain ⟨a1, b1⟩ := p
      rw [hr] at h
      simp only [Option.some.injEq, Prod.mk.injEq] at h
      obtain ⟨h1, h2⟩ := h
      subst h1 h2
      exact ih a1 hr
    | none =>
      rw [hr] at h
      simp only [] at h
      split_ifs at h with hp
      simp only [Option.some.injEq, Prod.mk.injEq] at h
      have hni : ¬ sep <:+: cs := (splitLast_eq_none_iff sep hsep cs).mp hr
      have hcs : c :: cs = sep ++ b := by
        have := List.prefix_iff_eq_append.mp (List.isPrefixOf_iff_prefix.mp hp)
        rw [h.2] at this
        exact this.symm
      cases sep with
      | nil => exact absurd rfl hsep
      | cons x xs =>
        simp only [List.cons_append, List.cons.injEq] at hcs
        rw [List.tail_cons, ← hcs.2]
        exact hni

theorem splitLast_complete (sep : Str) (hsep : sep ≠ []) (a b : Str)
    (h : ¬ sep <:+: sep.tail ++ b) : splitLast sep (a ++ sep ++ b) = some (a, b) := by
  induction a with
  | nil =>
    cases sep with
    | nil => exact absurd rfl hsep
    | cons x xs =>
      simp only [List.tail_cons] at h
      have hn := (splitLast_eq_none_iff (x :: xs) hsep (xs ++ b)).mpr h
      simp only [List.nil_append, List.cons_append]
      unfold splitLast
      rw [hn]
      have hp : (x :: xs).isPrefixOf (x :: (xs ++ b)) = true :=
        List.isPrefixOf_iff_prefix.mpr ⟨b, by simp⟩
      simp only [hp, if_true]
      have : List.drop (x :: xs).length (x :: (xs ++ b)) = b := by
        rw [← List.cons_append, List.drop_left]
      rw [this]
  | cons y ys ih =>
    simp only [List.cons_append]
    unfold splitLast
    rw [ih]


theorem penaltyRegex_eq_some_iff (text X : Str) :
    penaltyRegex text = some X ↔
      ∃ R : Str, text = "naughty <@".toList ++ X ++ ">, ".toList ++ R ∧ X ≠ [] ∧
        '\n' ∉ X ∧ '\n' ∉ R ∧ ¬ ">, ".toList <:+: R := by
  have hsep : ">, ".toList ≠ [] := by decide
  constructor
  · intro h
    unfold penaltyRegex at h
    simp only [] at h
    split_ifs at h with hp
    have hp2 := List.prefix_iff_eq_append.mp (List.isPrefixOf_iff_prefix.mp hp)
    cases hd : List.drop "naughty <@".toList.length text with
    | nil => rw [hd] at h; simp at h
    | cons c cs =>
      rw [hd] at h hp2
      simp only [] at h
      split_ifs at h with hn
      cases hs : splitLast ">, ".toList cs with
      | none => rw [hs] at h; simp at h
      | some p =>
        obtain ⟨before, after⟩ := p
        rw [hs] at h
        simp only [Option.some.injEq] at h
        have hcs := splitLast_sound _ _ _ _ hs
        have hlast := splitLast_last _ hsep _ _ _ hs
        have hnl := (noNewline_iff _).mp hn
        refine ⟨after, ?_, ?_, ?_, ?_, ?_⟩
        · rw [← hp2, ← h, hcs]; simp
        · rw [← h]; simp
        · rw [← h]
          intro hm
          apply hnl
          rw [hcs]
          rcases List.mem_cons.mp hm with e | e
          · rw [e]; exact List.mem_cons_self _ _
          · exact List.mem_cons_of_mem _ (by simp [e])
        · intro hm
          apply hnl
          rw [hcs]
          exact List.mem_cons_of_mem _ (by simp [hm])
        · intro hin
          exact hlast (hin.trans (List.suffix_append _ _).isInfix)
  · rintro ⟨R, htext, hX, hnX, hnR, hin⟩
    cases X with
    | nil => exact absurd rfl hX
    | cons c cs =>
      have hp : "naughty <@".toList.isPrefixOf text = true := by
        rw [htext, List.append_assoc, List.append_assoc]
        exact List.isPrefixOf_iff_prefix.mpr (List.prefix_append _ _)
      have hd : List.drop "naughty <@".toList.length text =
          c :: (cs ++ ">, ".toList ++ R) := by
        rw [htext, List.append_assoc, List.append_assoc, List.drop_left]
        simp
      have hn : noNewline (c :: (cs ++ ">, ".toList ++ R)) = true := by
        rw [noNewline_iff]
        intro hm
        rcases List.mem_cons.mp hm with e | e
        · exact hnX (e ▸ List.mem_cons_self _ _)
        · rcases List.mem_append.mp e with e1 | e1
          · rcases List.mem_append.mp e1 with e2 | e2
            · exact hnX (List.mem_cons_of_mem _ e2)
            · revert e2; decide
          · exact hnR e1
      have hs : splitLast ">, ".toList (cs ++ ">, ".toList ++ R) = some (cs, R) := by
        apply splitLast_complete _ hsep
        intro hi
        have h1 : ">, ".toList.tail ++ R = ',' :: ' ' :: R := rfl
        rw [h1, List.infix_cons_iff, List.infix_cons_iff] at hi
        rcases hi with hi | hi | hi
        · obtain ⟨t, ht⟩ := hi
          have : ">, ".toList = '>' :: ", ".toList := rfl
          rw [this] at ht
          simp at ht
        · obtain ⟨t, ht⟩ := hi
          have : ">, ".toList = '>' :: ", ".toList := rfl
          rw [this] at ht
          simp at ht
        · exact hin hi
      unfold penaltyRegex
      simp only [hp, if_true, hd, hn, hs]

/-! ## Durations -/

theorem wrap64_of_inInt64 (x : Int) (h : inInt64 x) : wrap64 x = x := by
  unfold wrap64
  unfold inInt64 at h
  omega

theorem wrap64_add_sub (x : Int) : wrap64 (wrap64 (x + 500) - 250) = wrap64 (x + 250) := by
  unfold wrap64
  omega

theorem gotPenalty_hit (ct : CaseTables) (text me X : Str) (s : GameState)
    (hm : penaltyRegex text = some X) (hX : ToUpper ct X = me) :
    gotPenalty ct text me s =
      (true, { s with MinWaitTime := wrap64 (s.WaitTime + 250),
                      WaitTime := wrap64 (s.WaitTime + 500) }) := by
  unfold gotPenalty
  simp only [hm, hX, decide_True, if_true]
  rfl

theorem gotPenalty_miss (ct : CaseTables) (text me : Str) (s : GameState)
    (h : ¬ ∃ X : Str, penaltyRegex text = some X ∧ ToUpper ct X = me) :
    gotPenalty ct text me s = (false, s) := by
  unfold gotPenalty
  cases hm : penaltyRegex text with
  | none => rfl
  | some X =>
    have hX : ¬ ToUpper ct X = me := fun e => h ⟨X, hm, e⟩
    simp only [hX, decide_False]
    rfl

theorem checkPossession_hit (ct : CaseTables) (text me X : Str) (s : GameState)
    (hm : possessionRegex text = some X) :
    checkPossession ct text me s =
      (decide (ToUpper ct X = me),
        { s with
          HasPosession := decide (ToUpper ct X = me),
          WaitTime :=
            if ToUpper ct X ≠ me ∧ s.HasPosession = true then
              max (wrap64 (s.WaitTime - 250)) s.MinWaitTime
            else s.WaitTime }) := by
  unfold checkPossession
  simp only [hm]
  by_cases hX : ToUpper ct X = me
  · simp [hX]
  · cases hh : s.HasPosession with
    | false => simp [hX]
    | true =>
      simp only [hX, decide_False, Bool.not_false, Bool.and_self, if_true, ne_eq,
        not_false_eq_true, and_self]
      by_cases hlt : wrap64 (s.WaitTime - 250) < s.MinWaitTime
      · rw [if_pos hlt, max_eq_right (le_of_lt hlt)]
      · rw [if_neg hlt, max_eq_left (not_lt.mp hlt)]

theorem penalties_run (ct : CaseTables) (me : Str) (texts : List Str) (s : GameState)
    (hall : ∀ t ∈ texts, ∃ X : Str, penaltyRegex t = some X ∧ ToUpper ct X = me)
    (hlo : -9223372036854775808 ≤ s.WaitTime)
    (hhi : s.WaitTime + 500 * texts.length ≤ 9223372036854775807) :
    (penalties ct me texts s).WaitTime = s.WaitTime + 500 * texts.length ∧
      (texts = [] → penalties ct me texts s = s) ∧
      (texts ≠ [] →
        (penalties ct me texts s).MinWaitTime = (penalties ct me texts s).WaitTime - 250) := by
  induction texts generalizing s with
  | nil => simp [penalties]
  | cons t ts ih =>
    obtain ⟨X, hm, hX⟩ := hall t (List.mem_cons_self _ _)
    have hlen : ((t :: ts).length : Int) = ts.length + 1 := by simp
    rw [hlen] at hhi
    have hw1 : wrap64 (s.WaitTime + 500) = s.WaitTime + 500 :=
      wrap64_of_inInt64 _ ⟨by omega, by omega⟩
    have hw2 : wrap64 (s.WaitTime + 250) = s.WaitTime + 250 :=
      wrap64_of_inInt64 _ ⟨by omega, by omega⟩
    have hstep := gotPenalty_hit ct t me X s hm hX
    rw [hw1, hw2] at hstep
    have ih1 := ih (gotPenalty ct t me s).2
      (fun u hu => hall u (List.mem_cons_of_mem _ hu))
      (by rw [hstep]; simp only []; omega)
      (by rw [hstep]; simp only []; omega)
    simp only [penalties]
    rw [hstep] at ih1 ⊢
    simp only [] at ih1 ⊢
    refine ⟨by rw [ih1.1, hlen]; ring, by simp, fun _ => ?_⟩
    by_cases hts : ts = []
    · rw [ih1.2.1 hts]
      simp only []
      omega
    · exact ih1.2.2 hts

/-! ## Joining -/

theorem handlePrivateMessage_joinNext (ct : CaseTables) (details : MessageDetails)
    (s : GameState) (h : ToLower ct details.msg = "join next".toList) :
    handlePrivateMessage ct details s =
      ({ s with JoinNext := true },
        [Action.reply "OK, I'll join the next game".toList details.channel]) := by
  unfold handlePrivateMessage
  simp only [h, if_true]

theorem handlePrivateMessage_reset (ct : CaseTables) (details : MessageDetails)
    (s : GameState) (h : ToLower ct details.msg = "reset".toList) :
    handlePrivateMessage ct details s =
      ({ s with AlwaysJoin := false, JoinNext := false, Players := none }, []) := by
  unfold handlePrivateMessage
  have h1 : "reset".toList ≠ "join next".toList := by decide
  have h2 : "reset".toList ≠ "join all".toList := by decide
  have h3 : "reset".toList ≠ "stop".toList := by decide
  have h4 : "reset".toList ≠ "test".toList := by decide
  simp only [h, h1, h2, h3, h4, if_true, if_false]

theorem handlePrivateMessage_timing (ct : CaseTables) (details : MessageDetails)
    (s : GameState) :
    (handlePrivateMessage ct details s).1.WaitTime = s.WaitTime ∧
      (handlePrivateMessage ct details s).1.MinWaitTime = s.MinWaitTime ∧
      (handlePrivateMessage ct details s).1.HasPosession = s.HasPosession := by
  unfold handlePrivateMessage
  simp only []
  split_ifs <;> exact ⟨rfl, rfl, rfl⟩

theorem shouldJoin_always (s : GameState) (h : s.AlwaysJoin = true) :
    s.ShouldJoin = (true, s) := by
  unfold GameState.ShouldJoin
  simp [h]

theorem shouldJoin_once (s : GameState) (h : s.AlwaysJoin = false) :
    s.ShouldJoin = (s.JoinNext, { s with JoinNext := false }) := by
  unfold GameState.ShouldJoin
  simp [h]

/-! ## Which patterns exclude each other -/

theorem playerRegex_head (text g : Str) (h : playerRegex text = some g) :
    text.head? = some 't' := by
  rw [((playerRegex_eq_some_iff text g).mp h).1]
  rfl

theorem penaltyRegex_head (text g : Str) (h : penaltyRegex text = some g) :
    text.head? = some 'n' := by
  obtain ⟨R, htext, -⟩ := (penaltyRegex_eq_some_iff text g).mp h
  rw [htext]
  rfl

theorem possessionRegex_head (text g : Str) (h : possessionRegex text = some g) :
    text.head? = some '<' := by
  rw [((anchoredGroup_eq_some_iff _ _ text g).mp h).1]
  rfl

theorem endingRegex_head (text g : Str) (h : endingRegex text = some g) :
    text.head? = some '<' := by
  rw [((anchoredGroup_eq_some_iff _ _ text g).mp h).1]
  rfl

theorem possessionRegex_last (text g : Str) (h : possessionRegex text = some g) :
    text.reverse.head? = some 'o' := by
  rw [((anchoredGroup_eq_some_iff _ _ text g).mp h).1, List.reverse_append]
  rfl

theorem endingRegex_last (text g : Str) (h : endingRegex text = some g) :
    text.reverse.head? = some '!' := by
  rw [((anchoredGroup_eq_some_iff _ _ text g).mp h).1, List.reverse_append]
  rfl

theorem possession_excludes (text X : Str) (h : possessionRegex text = some X) :
    playerRegex text = none ∧ endingRegex text = none ∧ penaltyRegex text = none := by
  have hh := possessionRegex_head text X h
  have hl := possessionRegex_last text X h
  refine ⟨?_, ?_, ?_⟩
  · cases h2 : playerRegex text with
    | none => rfl
    | some g =>
      have := playerRegex_head text g h2
      rw [hh] at this
      exact absurd this (by decide)
  · cases h2 : endingRegex text with
    | none => rfl
    | some g =>
      have := endingRegex_last text g h2
      rw [hl] at this
      exact absurd this (by decide)
  · cases h2 : penaltyRegex text with
    | none => rfl
    | some g =>
      have := penaltyRegex_head text g h2
      rw [hh] at this
      exact absurd this (by decide)

theorem penalty_excludes (text X : Str) (h : penaltyRegex text = some X) :
    playerRegex text = none ∧ endingRegex text = none ∧ possessionRegex text = none := by
  have hh := penaltyRegex_head text X h
  refine ⟨?_, ?_, ?_⟩
  · cases h2 : playerRegex text with
    | none => rfl
    | some g =>
      have := playerRegex_head text g h2
      rw [hh] at this
      exact absurd this (by decide)
  · cases h2 : endingRegex text with
    | none => rfl
    | some g =>
      have := endingRegex_head text g h2
      rw [hh] at this
      exact absurd this (by decide)
  · cases h2 : possessionRegex text with
    | none => rfl
    | some g =>
      have := possessionRegex_head text g h2
      rw [hh] at this
      exact absurd this (by decide)

theorem ending_excludes (text X : Str) (h : endingRegex text = some X) :
    playerRegex text = none ∧ possessionRegex text = none ∧ penaltyRegex text = none := by
  have hh := endingRegex_head text X h
  refine ⟨?_, ?_, ?_⟩
  · cases h2 : playerRegex text with
    | none => rfl
    | some g =>
      have := playerRegex_head text g h2
      rw [hh] at this
      exact absurd this (by decide)
  · cases h2 : possessionRegex text with
    | none => rfl
    | some g => exact absurd h (by rw [(possession_excludes text g h2).2.1]; simp)
  · cases h2 : penaltyRegex text with
    | none => rfl
    | some g =>
      have := penaltyRegex_head text g h2
      rw [hh] at this
      exact absurd this (by decide)

theorem checkPossession_none (ct : CaseTables) (text me : Str) (s : GameState)
    (h : possessionRegex text = none) : checkPossession ct text me s = (false, s) := by
  unfold checkPossession
  simp only [h]

theorem gotPenalty_none (ct : CaseTables) (text me : Str) (s : GameState)
    (h : penaltyRegex text = none) : gotPenalty ct text me s = (false, s) := by
  unfold gotPenalty
  simp only [h]

theorem parsePlayers_none (ct : CaseTables) (text : Str) (details : MessageDetails)
    (h : playerRegex text = none) : parsePlayers ct text details = none := by
  unfold parsePlayers
  simp only [h]

/-! ## The claims -/

/-- C1 (the code breaks the invariant). From the initial state the bot `ME`
watches three roster announcements and, between the second and the third, takes
the potato and passes it on nine times: it ends with `WaitTime = 750` below
`MinWaitTime = 1000`, because the third announcement sets the floor back to its
default without touching the wait time. -/
theorem waitTime_below_minWaitTime_reachable :
    runEvents asciiCase "ME".toList threeRounds initState =
        some { JoinNext := false, AlwaysJoin := false,
               Players := some ["A".toList, "B".toList],
               WaitTime := 750, MinWaitTime := 1000, HasPosession := false } ∧
      ¬ ((1000 : Int) ≤ 750) := by
  decide

/-- C2. The stored roster never holds the bot's own identifier: not in any
state that a run of public and private messages reaches from the initial state,
and not in any list that `parsePlayers` returns. -/
theorem players_never_contain_self (ct : CaseTables) (selfId : Str) :
    (∀ (events : List (MessageEvent × Nat)) (s : GameState),
        runEvents ct selfId events initState = some s → selfId ∉ elems s.Players) ∧
      (∀ (text : Str) (details : MessageDetails) (players : List Str),
        parsePlayers ct text details = some players → details.target ∉ players) := by
  refine ⟨fun events s h => ?_, fun text details players h => ?_⟩
  · exact runEvents_players ct selfId events initState s (by simp [elems, initState]) h
  · exact parsePlayers_not_mem ct text details players h

/-- C2 at a roster that names only the bot: the stored roster is present and
empty. -/
theorem players_never_contain_self_witness :
    runEvents asciiCase "ME".toList [publicEvent "the players are <@me>, <@ME>"]
        initState =
        some { initState with Players := some [], MinWaitTime := 250 } ∧
      "ME".toList ∉ elems (some ([] : List Str)) :=
  ⟨by decide,
    (players_never_contain_self asciiCase "ME".toList).1
      [publicEvent "the players are <@me>, <@ME>"]
      { initState with Players := some [], MinWaitTime := 250 } (by decide)⟩

/-- C3 (the code panics). With no roster the handler does not complete on a
possession message naming the bot, nor on a penalty message naming the bot, and
the same holds when the roster is present and empty: `rand.Intn(0)` panics. -/
theorem handlePublicMessage_panics_on_empty_roster :
    handlePublicMessage asciiCase
        ⟨"<@ME> has the potato".toList, "C1".toList, "U9".toList, "ME".toList⟩ 0
        initState = none ∧
      handlePublicMessage asciiCase
        ⟨"naughty <@ME>, you passed too early".toList, "C1".toList, "U9".toList,
          "ME".toList⟩ 0 initState = none ∧
      handlePublicMessage asciiCase
        ⟨"<@ME> has the potato".toList, "C1".toList, "U9".toList, "ME".toList⟩ 0
        { initState with Players := some [] } = none := by
  decide

/-- C4, against the claim as written. A literal segment keeps its case, and only
blanks are trimmed: `bob` stays `bob` where the claim has `BOB`, and a mention
behind a tab stays as it is where the claim has its identifier `AB`. -/
theorem parseNames_keeps_case_and_tabs :
    parseNames asciiCase ["bob".toList] = ["bob".toList] ∧
      ["bob".toList].map (specName asciiCase) = ["BOB".toList] ∧
      parseNames asciiCase ['\t' :: "<@ab>".toList] = ['\t' :: "<@ab>".toList] ∧
      ['\t' :: "<@ab>".toList].map (specName asciiCase) = ["AB".toList] := by
  decide

/-- C4, amended. `parseNames` returns a list of the same length in the same
order; the entry of a segment is the upper-cased identifier when the segment,
trimmed of blanks, is a mention `<@X>` (with `X` non-empty and on one line), and
otherwise the segment trimmed of blanks, in the case it came in. -/
theorem parseNames_entries (ct : CaseTables) (names : List Str) :
    (parseNames ct names).length = names.length ∧
      ∀ (i : Nat) (segment : Str), names[i]? = some segment →
        (∀ X : Str, X ≠ [] → '\n' ∉ X →
            Trim segment " ".toList = "<@".toList ++ X ++ ">".toList →
            (parseNames ct names)[i]? = some (ToUpper ct X)) ∧
          ((¬ ∃ X : Str, X ≠ [] ∧ '\n' ∉ X ∧
              Trim segment " ".toList = "<@".toList ++ X ++ ">".toList) →
            (parseNames ct names)[i]? = some (Trim segment " ".toList)) := by
  rw [parseNames_eq_map]
  refine ⟨by simp, fun i segment hseg => ⟨fun X hX hnl hform => ?_, fun hno => ?_⟩⟩
  · rw [List.getElem?_map, hseg]
    have hm : userRegex (Trim segment " ".toList) = some X :=
      (anchoredGroup_eq_some_iff _ _ _ _).mpr ⟨hform, hX, hnl⟩
    simp only [Option.map_some', Option.some.injEq]
    unfold parseName
    simp only [hm]
  · rw [List.getElem?_map, hseg]
    have hm : userRegex (Trim segment " ".toList) = none := by
      cases hu : userRegex (Trim segment " ".toList) with
      | none => rfl
      | some X =>
        obtain ⟨h1, h2, h3⟩ := (anchoredGroup_eq_some_iff _ _ _ _).mp hu
        exact absurd ⟨X, h2, h3, h1⟩ hno
    simp only [Option.map_some', Option.some.injEq]
    unfold parseName
    simp only [hm]

/-- C4, amended, at the segments `bob` and ` <@ab12> `. -/
theorem parseNames_entries_witness :
    (parseNames asciiCase ["bob".toList, " <@ab12> ".toList]).length = 2 ∧
      (parseNames asciiCase ["bob".toList, " <@ab12> ".toList])[1]? =
        some "AB12".toList ∧
      (parseNames asciiCase ["bob".toList, " <@ab12> ".toList])[0]? =
        some "bob".toList :=
  ⟨(parseNames_entries asciiCase ["bob".toList, " <@ab12> ".toList]).1,
    ((parseNames_entries asciiCase ["bob".toList, " <@ab12> ".toList]).2 1
      " <@ab12> ".toList (by decide)).1 "ab12".toList (by decide) (by decide)
      (by decide),
    ((parseNames_entries asciiCase ["bob".toList, " <@ab12> ".toList]).2 0
      "bob".toList (by decide)).2 (by
        rintro ⟨X, -, -, h⟩
        have hb : Trim "bob".toList " ".toList = "bob".toList := by decide
        rw [hb] at h
        simp at h)⟩

/-- C5. On a text `the players are R` with `R` on one line, `parsePlayers`
returns a present roster: the comma-separated segments of `R` (the pieces
without a comma that give `R` back when joined by commas), each mapped through
`parseName`, without the entries equal to the bot's identifier and otherwise in
their order. On every other text it returns nil. -/
theorem parsePlayers_spec (ct : CaseTables) (text : Str) (details : MessageDetails) :
    (∀ R : Str, text = "the players are ".toList ++ R → '\n' ∉ R →
        parsePlayers ct text details =
          some (((Split R ',').map (parseName ct)).filter
            (fun n => decide (n ≠ details.target))) ∧
        List.intercalate [','] (Split R ',') = R ∧
        ∀ piece ∈ Split R ',', ',' ∉ piece) ∧
      ((¬ ∃ R : Str, text = "the players are ".toList ++ R ∧ '\n' ∉ R) →
        parsePlayers ct text details = none) := by
  refine ⟨fun R hform hnl => ⟨?_, (Split_spec R ',').2⟩, fun hno => ?_⟩
  · exact (parsePlayers_eq_some_iff ct text details _).mpr
      ⟨R, (playerRegex_eq_some_iff text R).mpr ⟨hform, hnl⟩, rfl⟩
  · cases hp : parsePlayers ct text details with
    | none => rfl
    | some players =>
      obtain ⟨g, hg, -⟩ := (parsePlayers_eq_some_iff ct text details players).mp hp
      exact absurd ⟨g, (playerRegex_eq_some_iff text g).mp hg⟩ hno

/-- C5 at the announcement `the players are <@AB12>, <@CD34>` seen by the bot
`CD34`: the roster is `AB12` alone. -/
theorem parsePlayers_spec_witness :
    parsePlayers asciiCase "the players are <@AB12>, <@CD34>".toList
        ⟨[], [], [], "CD34".toList⟩ = some ["AB12".toList] :=
  ((parsePlayers_spec asciiCase "the players are <@AB12>, <@CD34>".toList
      ⟨[], [], [], "CD34".toList⟩).1 "<@AB12>, <@CD34>".toList (by decide)
      (by decide)).1.trans (by decide)

/-- C6. When the penalty pattern matches and its upper-cased group is the bot's
identifier, `gotPenalty` returns true and sets `MinWaitTime` to the old
`WaitTime + 250` and `WaitTime` to the old `WaitTime + 500`, whatever
`HasPosession` is and with every other field as it was; in every other case it
returns false and leaves the state as it was. The sums are those of `int64`,
the plain sums as long as `WaitTime + 500` fits. -/
theorem gotPenalty_spec (ct : CaseTables) (text me : Str) (s : GameState) :
    (∀ X : Str, penaltyRegex text = some X → ToUpper ct X = me →
        gotPenalty ct text me s =
          (true, { s with MinWaitTime := wrap64 (s.WaitTime + 250),
                          WaitTime := wrap64 (s.WaitTime + 500) })) ∧
      ((¬ ∃ X : Str, penaltyRegex text = some X ∧ ToUpper ct X = me) →
        gotPenalty ct text me s = (false, s)) ∧
      (inInt64 s.WaitTime → s.WaitTime + 500 ≤ 9223372036854775807 →
        wrap64 (s.WaitTime + 250) = s.WaitTime + 250 ∧
          wrap64 (s.WaitTime + 500) = s.WaitTime + 500) := by
  refine ⟨fun X hm hX => gotPenalty_hit ct text me X s hm hX,
    fun h => gotPenalty_miss ct text me s h, fun hr hhi => ?_⟩
  unfold inInt64 at hr
  exact ⟨wrap64_of_inInt64 _ ⟨by omega, by omega⟩,
    wrap64_of_inInt64 _ ⟨by omega, by omega⟩⟩

/-- C6 at a penalty against `ME` while it does not hold the potato, and at a
penalty against somebody else. -/
theorem gotPenalty_spec_witness :
    gotPenalty asciiCase "naughty <@me>, you passed too early".toList "ME".toList
        initState =
        (true, { initState with MinWaitTime := 3250, WaitTime := 3500 }) ∧
      gotPenalty asciiCase "naughty <@a>, you passed too early".toList "ME".toList
        initState = (false, initState) :=
  ⟨((gotPenalty_spec asciiCase "naughty <@me>, you passed too early".toList
      "ME".toList initState).1 "me".toList (by decide) (by decide)).trans (by decide),
    (gotPenalty_spec asciiCase "naughty <@a>, you passed too early".toList
      "ME".toList initState).2.1 (by
        rintro ⟨X, h1, h2⟩
        have h3 : penaltyRegex "naughty <@a>, you passed too early".toList =
            some "a".toList := by decide
        rw [h3] at h1
        simp only [Option.some.injEq] at h1
        rw [← h1] at h2
        revert h2
        decide)⟩

/-- C7, against the claim as written. In the state that the three announced
rounds of C1 reach, with `WaitTime = 750` under `MinWaitTime = 1000`, a penalty
against the bot leaves `MinWaitTime` at 1000: it does not increase. -/
theorem penalty_keeps_minWaitTime :
    (runEvents asciiCase "ME".toList threeRounds initState).map
        (fun s => (s.WaitTime, s.MinWaitTime,
          gotPenalty asciiCase "naughty <@me>, you passed too early".toList
            "ME".toList s)) =
      some (750, 1000, true,
        { JoinNext := false, AlwaysJoin := false,
          Players := some ["A".toList, "B".toList],
          WaitTime := 1250, MinWaitTime := 1000, HasPosession := false }) := by
  decide

/-- C7, amended. In a run of consecutive penalties against the bot that does not
overflow, every penalty strictly increases `WaitTime`; a penalty strictly
increases `MinWaitTime` exactly when `MinWaitTime < WaitTime + 250` held before
it, which is so for every penalty after the first and for the first one when
the run starts with `MinWaitTime ≤ WaitTime`. -/
theorem penalties_increase (ct : CaseTables) (me : Str) (texts : List Str)
    (text : Str) (s : GameState)
    (hall : ∀ t ∈ texts ++ [text],
      ∃ X : Str, penaltyRegex t = some X ∧ ToUpper ct X = me)
    (hlo : -9223372036854775808 ≤ s.WaitTime)
    (hhi : s.WaitTime + 500 * (texts.length + 1) ≤ 9223372036854775807) :
    (penalties ct me texts s).WaitTime <
        (gotPenalty ct text me (penalties ct me texts s)).2.WaitTime ∧
      ((penalties ct me texts s).MinWaitTime <
          (gotPenalty ct text me (penalties ct me texts s)).2.MinWaitTime ↔
        (penalties ct me texts s).MinWaitTime <
          (penalties ct me texts s).WaitTime + 250) ∧
      (texts ≠ [] ∨ s.MinWaitTime ≤ s.WaitTime →
        (penalties ct me texts s).MinWaitTime <
          (gotPenalty ct text me (penalties ct me texts s)).2.MinWaitTime) := by
  obtain ⟨X, hm, hX⟩ := hall text (by simp)
  have hrun := penalties_run ct me texts s
    (fun t ht => hall t (List.mem_append_left _ ht)) hlo (by omega)
  have hstep := gotPenalty_hit ct text me X (penalties ct me texts s) hm hX
  have hw1 : wrap64 ((penalties ct me texts s).WaitTime + 500) =
      (penalties ct me texts s).WaitTime + 500 :=
    wrap64_of_inInt64 _ ⟨by omega, by omega⟩
  have hw2 : wrap64 ((penalties ct me texts s).WaitTime + 250) =
      (penalties ct me texts s).WaitTime + 250 :=
    wrap64_of_inInt64 _ ⟨by omega, by omega⟩
  rw [hstep, hw1, hw2]
  simp only []
  refine ⟨by omega, trivial, fun h => ?_⟩
  by_cases hts : texts = []
  · rw [hrun.2.1 hts]
    rcases h with h | h
    · exact absurd hts h
    · omega
  · have := hrun.2.2 hts
    omega

/-- C7, amended, at two penalties in a row from the initial state. -/
theorem penalties_increase_witness :
    (penalties asciiCase "ME".toList ["naughty <@me>, too early".toList]
        initState).WaitTime <
        (gotPenalty asciiCase "naughty <@me>, too late".toList "ME".toList
          (penalties asciiCase "ME".toList ["naughty <@me>, too early".toList]
            initState)).2.WaitTime ∧
      (penalties asciiCase "ME".toList ["naughty <@me>, too early".toList]
        initState).MinWaitTime <
        (gotPenalty asciiCase "naughty <@me>, too late".toList "ME".toList
          (penalties asciiCase "ME".toList ["naughty <@me>, too early".toList]
            initState)).2.MinWaitTime :=
  have h := penalties_increase asciiCase "ME".toList
    ["naughty <@me>, too early".toList] "naughty <@me>, too late".toList initState
    (by
      intro t ht
      refine ⟨"me".toList, ?_, by decide⟩
      simp only [List.cons_append, List.nil_append, List.mem_cons, List.mem_singleton,
        List.not_mem_nil, or_false] at ht
      rcases ht with e | e <;> rw [e] <;> decide)
    (by decide) (by decide)
  ⟨h.1, h.2.2 (Or.inl (by decide))⟩

/-- C8. On a text `<@X> has the potato`, `checkPossession` returns whether the
upper-cased `X` is the bot's identifier and stores that in `HasPosession`;
`WaitTime` becomes the larger of `WaitTime - 250` and `MinWaitTime` when the
answer is no and the bot held the potato, and stays as it was otherwise; no
other field changes. On every other text it returns false and leaves the state
as it was. The difference is that of `int64`, the plain difference as long as
`WaitTime - 250` fits. -/
theorem checkPossession_spec (ct : CaseTables) (text me : Str) (s : GameState) :
    (∀ X : Str, X ≠ [] → '\n' ∉ X →
        text = "<@".toList ++ X ++ "> has the potato".toList →
        checkPossession ct text me s =
          (decide (ToUpper ct X = me),
            { s with
              HasPosession := decide (ToUpper ct X = me),
              WaitTime :=
                if ToUpper ct X ≠ me ∧ s.HasPosession = true then
                  max (wrap64 (s.WaitTime - 250)) s.MinWaitTime
                else s.WaitTime })) ∧
      ((¬ ∃ X : Str, X ≠ [] ∧ '\n' ∉ X ∧
          text = "<@".toList ++ X ++ "> has the potato".toList) →
        checkPossession ct text me s = (false, s)) ∧
      (inInt64 s.WaitTime → -9223372036854775808 ≤ s.WaitTime - 250 →
        wrap64 (s.WaitTime - 250) = s.WaitTime - 250) := by
  refine ⟨fun X hX hnl hform => ?_, fun hno => ?_, fun hr hlo => ?_⟩
  · exact checkPossession_hit ct text me X s
      ((anchoredGroup_eq_some_iff _ _ _ _).mpr ⟨hform, hX, hnl⟩)
  · unfold checkPossession
    cases hm : possessionRegex text with
    | none => rfl
    | some X =>
      obtain ⟨h1, h2, h3⟩ := (anchoredGroup_eq_some_iff _ _ _ _).mp hm
      exact absurd ⟨X, h2, h3, h1⟩ hno
  · unfold inInt64 at hr
    exact wrap64_of_inInt64 _ ⟨by omega, by omega⟩

/-- C8 at a pass from the bot `ME`, which holds the potato, to the player `a`. -/
theorem checkPossession_spec_witness :
    checkPossession asciiCase "<@a> has the potato".toList "ME".toList
        { initState with HasPosession := true } =
      (false, { initState with WaitTime := 2750 }) :=
  ((checkPossession_spec asciiCase "<@a> has the potato".toList "ME".toList
      { initState with HasPosession := true }).1 "a".toList (by decide) (by decide)
      (by decide)).trans (by decide)

/-- C9. When the bot holds the potato, a penalty against it followed by a
possession message that names another player leaves `WaitTime` equal to
`MinWaitTime`, both the `WaitTime` before the penalty plus 250 (the sum of
`int64`, the plain sum as long as it fits). -/
theorem penalty_then_pass_through (ct : CaseTables) (penalty possession me X Y : Str)
    (s : GameState) (hheld : s.HasPosession = true)
    (hp : penaltyRegex penalty = some X) (hX : ToUpper ct X = me)
    (hq : possessionRegex possession = some Y) (hY : ToUpper ct Y ≠ me) :
    (checkPossession ct possession me (gotPenalty ct penalty me s).2).2.WaitTime =
        (checkPossession ct possession me (gotPenalty ct penalty me s).2).2.MinWaitTime ∧
      (checkPossession ct possession me (gotPenalty ct penalty me s).2).2.MinWaitTime =
        wrap64 (s.WaitTime + 250) ∧
      (inInt64 (s.WaitTime + 250) → wrap64 (s.WaitTime + 250) = s.WaitTime + 250) := by
  rw [gotPenalty_hit ct penalty me X s hp hX, checkPossession_hit ct possession me Y _ hq]
  simp only [hY, hheld, ne_eq, not_false_eq_true, and_self, if_true, wrap64_add_sub,
    max_self]
  exact ⟨trivial, trivial, fun h => wrap64_of_inInt64 _ h⟩

/-- C9 from `WaitTime = 3000`, `MinWaitTime = 1000`: the penalty gives 3250 and
3500, the pass-through 3250 for both; the two messages give the same through
the public handler. -/
theorem penalty_then_pass_through_witness :
    gotPenalty asciiCase "naughty <@me>, you passed too early".toList "ME".toList
        { initState with HasPosession := true } =
        (true, { initState with HasPosession := true, MinWaitTime := 3250,
                                WaitTime := 3500 }) ∧
      ((checkPossession asciiCase "<@a> has the potato".toList "ME".toList
          (gotPenalty asciiCase "naughty <@me>, you passed too early".toList
            "ME".toList { initState with HasPosession := true }).2).2.WaitTime =
        (checkPossession asciiCase "<@a> has the potato".toList "ME".toList
          (gotPenalty asciiCase "naughty <@me>, you passed too early".toList
            "ME".toList { initState with HasPosession := true }).2).2.MinWaitTime ∧
      (checkPossession asciiCase "<@a> has the potato".toList "ME".toList
          (gotPenalty asciiCase "naughty <@me>, you passed too early".toList
            "ME".toList { initState with HasPosession := true }).2).2.MinWaitTime =
        3250) ∧
      runEvents asciiCase "ME".toList
        [publicEvent "naughty <@me>, you passed too early",
         publicEvent "<@a> has the potato"]
        { initState with HasPosession := true, Players := some ["A".toList] } =
        some { initState with Players := some ["A".toList], MinWaitTime := 3250,
                              WaitTime := 3250 } :=
  have h := penalty_then_pass_through asciiCase
    "naughty <@me>, you passed too early".toList "<@a> has the potato".toList
    "ME".toList "me".toList "a".toList { initState with HasPosession := true }
    (by decide) (by decide) (by decide) (by decide) (by decide)
  ⟨by decide, ⟨h.1, h.2.1.trans (by decide)⟩, by decide⟩

/-- C10. A public message that is handled as a roster announcement (it is not
a game start and `parsePlayers` returns a roster) stores the parsed roster, sets
`MinWaitTime` to 1000 when it was below `1000 - 750` and to `MinWaitTime - 750`
otherwise, changes no other field and sends nothing. -/
theorem handlePublicMessage_roster_spec (ct : CaseTables) (details : MessageDetails)
    (rnd : Nat) (s : GameState) (players : List Str)
    (hg : isGameStarting (ToLower ct details.msg) = false)
    (hp : parsePlayers ct (ToLower ct details.msg) details = some players)
    (hr : inInt64 s.MinWaitTime) :
    handlePublicMessage ct details rnd s =
      some ({ s with
          Players := some players,
          MinWaitTime :=
            if s.MinWaitTime < 1000 - 750 then 1000 else s.MinWaitTime - 750 },
        []) := by
  rw [handlePublicMessage_roster ct details rnd s players hg hp]
  unfold inInt64 at hr
  by_cases hlt : s.MinWaitTime < 1000 - 750
  · have hlt2 : s.MinWaitTime < DEFAULT_MIN_WAIT_TIME - BETWEEN_ROUND_ADJUSTMENT := hlt
    rw [if_pos hlt2, if_pos hlt]
    rfl
  · have hlt2 : ¬ s.MinWaitTime < DEFAULT_MIN_WAIT_TIME - BETWEEN_ROUND_ADJUSTMENT := hlt
    have hw : wrap64 (s.MinWaitTime - BETWEEN_ROUND_ADJUSTMENT) = s.MinWaitTime - 750 := by
      show wrap64 (s.MinWaitTime - 750) = s.MinWaitTime - 750
      exact wrap64_of_inInt64 _ ⟨by omega, by omega⟩
    rw [if_neg hlt2, if_neg hlt, hw]

/-- C10 at the first two announcements after the start: the floor goes from
1000 to 250 and from 250 to -500. -/
theorem handlePublicMessage_roster_spec_witness :
    handlePublicMessage asciiCase
        ⟨"The players are <@a>, <@me>".toList, "C1".toList, "U9".toList, "ME".toList⟩
        0 initState =
        some ({ initState with Players := some ["A".toList], MinWaitTime := 250 },
          []) ∧
      handlePublicMessage asciiCase
        ⟨"The players are <@a>, <@me>".toList, "C1".toList, "U9".toList, "ME".toList⟩
        0 { initState with MinWaitTime := 250 } =
        some ({ initState with Players := some ["A".toList], MinWaitTime := -500 },
          []) :=
  ⟨(handlePublicMessage_roster_spec asciiCase
      ⟨"The players are <@a>, <@me>".toList, "C1".toList, "U9".toList, "ME".toList⟩
      0 initState ["A".toList] (by decide) (by decide) (by decide)).trans (by decide),
    (handlePublicMessage_roster_spec asciiCase
      ⟨"The players are <@a>, <@me>".toList, "C1".toList, "U9".toList, "ME".toList⟩
      0 { initState with MinWaitTime := 250 } ["A".toList] (by decide) (by decide)
      (by decide)).trans (by decide)⟩

/-- C11 (the code breaks the floor). The bot `ME` joins one round and then
watches the announcement of a second one: `MinWaitTime` goes from 1000 to 250
and from 250 to -500, below the floor of 250 and below zero. The guard compares
the floor with the value before the subtraction, not after it. -/
theorem minWaitTime_below_floor_reachable :
    runEvents asciiCase "ME".toList twoRounds initState =
        some { JoinNext := false, AlwaysJoin := false,
               Players := some ["A".toList, "B".toList],
               WaitTime := 3000, MinWaitTime := -500, HasPosession := false } ∧
      (-500 : Int) < DEFAULT_MIN_WAIT_TIME - BETWEEN_ROUND_ADJUSTMENT ∧
      (-500 : Int) < 0 := by
  decide

/-- C12. Without the standing intent, `ShouldJoin` returns the one-shot flag
`JoinNext`, clears it and changes no other field; so with `JoinNext` set the
first call returns true and the next one false. -/
theorem shouldJoin_one_shot (s : GameState) (h : s.AlwaysJoin = false) :
    s.ShouldJoin = (s.JoinNext, { s with JoinNext := false }) ∧
      (s.JoinNext = true →
        s.ShouldJoin.1 = true ∧ s.ShouldJoin.2.ShouldJoin.1 = false) := by
  have h1 := shouldJoin_once s h
  refine ⟨h1, fun hj => ?_⟩
  rw [h1]
  simp only []
  rw [shouldJoin_once { s with JoinNext := false } h]
  exact ⟨hj, rfl⟩

/-- C12 at the initial state with `JoinNext` set. -/
theorem shouldJoin_one_shot_witness :
    ({ initState with JoinNext := true } : GameState).ShouldJoin = (true, initState) ∧
      ({ initState with JoinNext := true } : GameState).ShouldJoin.2.ShouldJoin.1 =
        false :=
  have h := shouldJoin_one_shot { initState with JoinNext := true } (by decide)
  ⟨h.1.trans (by decide), (h.2 (by decide)).2⟩

/-- C13. With the standing intent set, any number of calls of `ShouldJoin` in
a row all return true and leave the whole state as it was: `JoinNext` keeps its
value and `AlwaysJoin` stays set. -/
theorem shouldJoin_standing (s : GameState) (n : Nat) (h : s.AlwaysJoin = true) :
    shouldJoinTimes n s = (List.replicate n true, s) := by
  induction n with
  | zero => rfl
  | succ k ih =>
    unfold shouldJoinTimes
    rw [shouldJoin_always s h]
    simp only [ih]
    rfl

/-- C13 at three calls with both intents set. -/
theorem shouldJoin_standing_witness :
    shouldJoinTimes 3 { initState with AlwaysJoin := true, JoinNext := true } =
      ([true, true, true], { initState with AlwaysJoin := true, JoinNext := true }) :=
  shouldJoin_standing { initState with AlwaysJoin := true, JoinNext := true } 3
    (by decide)

/-- C14. Without the standing intent: after the private command `join next`, a
public message that starts a game is answered by `join` alone and sets
`WaitTime = 3000` and `MinWaitTime = 1000`; a second such message right after
it is not answered and leaves the whole state as it was. -/
theorem join_next_then_game_starting (ct : CaseTables)
    (command starting again : MessageDetails) (rnd rnd2 : Nat) (s : GameState)
    (ha : s.AlwaysJoin = false)
    (hc : ToLower ct command.msg = "join next".toList)
    (h1 : isGameStarting (ToLower ct starting.msg) = true)
    (h2 : isGameStarting (ToLower ct again.msg) = true) :
    handlePublicMessage ct starting rnd (handlePrivateMessage ct command s).1 =
        some ({ s with JoinNext := false, WaitTime := 3000, MinWaitTime := 1000 },
          [Action.reply "join".toList starting.channel]) ∧
      handlePublicMessage ct again rnd2
          { s with JoinNext := false, WaitTime := 3000, MinWaitTime := 1000 } =
        some ({ s with JoinNext := false, WaitTime := 3000, MinWaitTime := 1000 },
          []) := by
  constructor
  · rw [handlePrivateMessage_joinNext ct command s hc,
      handlePublicMessage_gameStarting ct starting rnd _ h1]
    simp only []
    rw [shouldJoin_once { s with JoinNext := true } ha]
    rfl
  · rw [handlePublicMessage_gameStarting ct again rnd2 _ h2,
      shouldJoin_once { s with JoinNext := false, WaitTime := 3000, MinWaitTime := 1000 }
        ha]
    rfl

/-- C14 from a state that a penalty has slowed down. -/
theorem join_next_then_game_starting_witness :
    handlePublicMessage asciiCase
        ⟨"Hot potato starting in 10 seconds - message join to play".toList,
          "C1".toList, "U9".toList, "ME".toList⟩ 0
        (handlePrivateMessage asciiCase
          ⟨"Join Next".toList, "D7".toList, "U1".toList, "ME".toList⟩
          { initState with WaitTime := 3500, MinWaitTime := 3250 }).1 =
        some (initState, [Action.reply "join".toList "C1".toList]) ∧
      handlePublicMessage asciiCase
        ⟨"Hot potato starting in 10 seconds - message join to play".toList,
          "C1".toList, "U9".toList, "ME".toList⟩ 0 initState =
        some (initState, []) :=
  have h := join_next_then_game_starting asciiCase
    ⟨"Join Next".toList, "D7".toList, "U1".toList, "ME".toList⟩
    ⟨"Hot potato starting in 10 seconds - message join to play".toList,
      "C1".toList, "U9".toList, "ME".toList⟩
    ⟨"Hot potato starting in 10 seconds - message join to play".toList,
      "C1".toList, "U9".toList, "ME".toList⟩ 0 0
    { initState with WaitTime := 3500, MinWaitTime := 3250 }
    (by decide) (by decide) (by decide) (by decide)
  ⟨h.1.trans (by decide), h.2.trans (by decide)⟩

/-- C15, against the claim as written. A text can match the round-end pattern
and the unanchored game-starting pattern at once; the handler then takes the
game-starting branch: the roster stays and, as the bot joins, the two wait
times are set back to their defaults. -/
theorem round_end_behind_game_starting :
    (endingRegex (ToLower asciiCase
        "<@hot potato starting in 5 seconds - message x> is the winner!".toList)).isSome
        = true ∧
      handlePublicMessage asciiCase
        ⟨"<@hot potato starting in 5 seconds - message x> is the winner!".toList,
          "C1".toList, "U9".toList, "ME".toList⟩ 0
        { JoinNext := true, AlwaysJoin := false, Players := some ["A".toList],
          WaitTime := 3500, MinWaitTime := 3250, HasPosession := false } =
        some ({ JoinNext := false, AlwaysJoin := false, Players := some ["A".toList],
                WaitTime := 3000, MinWaitTime := 1000, HasPosession := false },
          [Action.reply "join".toList "C1".toList]) := by
  decide

/-- C15, amended. A public message whose lower-cased text matches the round-end
pattern and not the game-starting pattern leaves the roster nil and every other
field, `WaitTime` and `MinWaitTime` among them, as it was, whether the winner is
the bot or not; the one reply is the cheer or the sigh. -/
theorem round_end_clears_roster (ct : CaseTables) (details : MessageDetails)
    (rnd : Nat) (s : GameState) (X : Str)
    (he : endingRegex (ToLower ct details.msg) = some X)
    (hg : isGameStarting (ToLower ct details.msg) = false) :
    handlePublicMessage ct details rnd s =
      some ({ s with Players := none },
        [if ToUpper ct X = details.target then
            Action.reply "Woo hoo! :tada:".toList details.channel
          else Action.reply "Awe man! :cry:".toList details.channel]) := by
  obtain ⟨h1, h2, h3⟩ := ending_excludes _ X he
  rw [handlePublicMessage_other ct details rnd s hg (parsePlayers_none ct _ details h1)]
  have hpp : possessionOrPenalty ct (ToLower ct details.msg) details.target s
      = (false, s) := by
    unfold possessionOrPenalty
    rw [checkPossession_none ct _ _ s h2]
    simp only [Bool.false_eq_true, if_false]
    exact gotPenalty_none ct _ _ s h3
  have hres : gameResult ct (ToLower ct details.msg) details.target =
      if ToUpper ct X = details.target then 1 else -1 := by
    unfold gameResult
    simp only [he]
  simp only [hpp, Bool.false_eq_true, if_false, hres]
  by_cases hw : ToUpper ct X = details.target
  · simp [hw]
  · simp [hw]

/-- C15, amended, at a round that the bot wins and a round that it loses. -/
theorem round_end_clears_roster_witness :
    handlePublicMessage asciiCase
        ⟨"<@ME> is the winner!".toList, "C1".toList, "U9".toList, "ME".toList⟩ 0
        { initState with Players := some ["A".toList], MinWaitTime := 250 } =
        some ({ initState with MinWaitTime := 250 },
          [Action.reply "Woo hoo! :tada:".toList "C1".toList]) ∧
      handlePublicMessage asciiCase
        ⟨"<@A> is the winner!".toList, "C1".toList, "U9".toList, "ME".toList⟩ 0
        { initState with Players := some ["A".toList], MinWaitTime := 250 } =
        some ({ initState with MinWaitTime := 250 },
          [Action.reply "Awe man! :cry:".toList "C1".toList]) :=
  ⟨(round_end_clears_roster asciiCase
      ⟨"<@ME> is the winner!".toList, "C1".toList, "U9".toList, "ME".toList⟩ 0
      { initState with Players := some ["A".toList], MinWaitTime := 250 }
      "me".toList (by decide) (by decide)).trans (by decide),
    (round_end_clears_roster asciiCase
      ⟨"<@A> is the winner!".toList, "C1".toList, "U9".toList, "ME".toList⟩ 0
      { initState with Players := some ["A".toList], MinWaitTime := 250 }
      "a".toList (by decide) (by decide)).trans (by decide)⟩

/-- C16. The private command `reset`, in any letter case, clears the two join
intents and the roster, sends nothing and leaves `WaitTime`, `MinWaitTime` and
`HasPosession` as they were; and no private command at all changes `WaitTime`
or `MinWaitTime`. -/
theorem reset_keeps_timing (ct : CaseTables) (details : MessageDetails)
    (s : GameState) :
    (ToLower ct details.msg = "reset".toList →
        handlePrivateMessage ct details s =
          ({ s with AlwaysJoin := false, JoinNext := false, Players := none }, [])) ∧
      (handlePrivateMessage ct details s).1.WaitTime = s.WaitTime ∧
      (handlePrivateMessage ct details s).1.MinWaitTime = s.MinWaitTime :=
  ⟨fun h => handlePrivateMessage_reset ct details s h,
    (handlePrivateMessage_timing ct details s).1,
    (handlePrivateMessage_timing ct details s).2.1⟩

/-- C16 at `Reset` sent to a bot that has a roster, both intents and the
potato. -/
theorem reset_keeps_timing_witness :
    handlePrivateMessage asciiCase
        ⟨"Reset".toList, "D7".toList, "U1".toList, "ME".toList⟩
        { JoinNext := true, AlwaysJoin := true, Players := some ["A".toList],
          WaitTime := 3500, MinWaitTime := 3250, HasPosession := true } =
      ({ JoinNext := false, AlwaysJoin := false, Players := none,
         WaitTime := 3500, MinWaitTime := 3250, HasPosession := true }, []) :=
  ((reset_keeps_timing asciiCase
      ⟨"Reset".toList, "D7".toList, "U1".toList, "ME".toList⟩
      { JoinNext := true, AlwaysJoin := true, Players := some ["A".toList],
        WaitTime := 3500, MinWaitTime := 3250, HasPosession := true }).1
      (by decide)).trans (by decide)

/-- C17. A public message whose lower-cased text matches the game-starting
pattern is handled by the game-starting branch alone, whatever else it matches:
the handler completes, `Players` and `HasPosession` stay, the only reply there
can be is `join`, and `WaitTime` and `MinWaitTime` are set to 3000 and 1000 when
`ShouldJoin` returned true and stay otherwise. -/
theorem game_starting_wins (ct : CaseTables) (details : MessageDetails) (rnd : Nat)
    (s : GameState) (hg : isGameStarting (ToLower ct details.msg) = true) :
    ∃ (s1 : GameState) (out : List Action),
      handlePublicMessage ct details rnd s = some (s1, out) ∧
        s1.Players = s.Players ∧ s1.HasPosession = s.HasPosession ∧
        s1.AlwaysJoin = s.AlwaysJoin ∧ s1.JoinNext = s.ShouldJoin.2.JoinNext ∧
        ((s.ShouldJoin.1 = true ∧ s1.WaitTime = 3000 ∧ s1.MinWaitTime = 1000 ∧
            out = [Action.reply "join".toList details.channel]) ∨
          (s.ShouldJoin.1 = false ∧ s1.WaitTime = s.WaitTime ∧
            s1.MinWaitTime = s.MinWaitTime ∧ out = [])) := by
  rw [handlePublicMessage_gameStarting ct details rnd s hg]
  have hframe : s.ShouldJoin.2.Players = s.Players ∧
      s.ShouldJoin.2.HasPosession = s.HasPosession ∧
      s.ShouldJoin.2.AlwaysJoin = s.AlwaysJoin ∧
      s.ShouldJoin.2.WaitTime = s.WaitTime ∧
      s.ShouldJoin.2.MinWaitTime = s.MinWaitTime := by
    unfold GameState.ShouldJoin
    split <;> exact ⟨rfl, rfl, rfl, rfl, rfl⟩
  obtain ⟨f1, f2, f3, f4, f5⟩ := hframe
  cases hj : s.ShouldJoin.1 with
  | true =>
    rw [if_pos rfl]
    exact ⟨_, _, rfl, f1, f2, f3, rfl, Or.inl ⟨rfl, rfl, rfl, rfl⟩⟩
  | false =>
    rw [if_neg Bool.false_ne_true]
    exact ⟨_, _, rfl, f1, f2, f3, rfl, Or.inr ⟨rfl, f4, f5, rfl⟩⟩

/-- C17 at a text that is a game start and a round end at once, seen by a bot
that does not join: nothing changes, the roster is not cleared. -/
theorem game_starting_wins_witness :
    ∃ (s1 : GameState) (out : List Action),
      handlePublicMessage asciiCase
          ⟨"<@hot potato starting in 5 seconds - message x> is the winner!".toList,
            "C1".toList, "U9".toList, "ME".toList⟩ 0
          { initState with Players := some ["A".toList] } = some (s1, out) ∧
        s1.Players = some ["A".toList] ∧ s1.HasPosession = false ∧
        s1.AlwaysJoin = false ∧ s1.JoinNext = false ∧
        ((({ initState with Players := some ["A".toList] } : GameState).ShouldJoin.1
              = true ∧ s1.WaitTime = 3000 ∧ s1.MinWaitTime = 1000 ∧
            out = [Action.reply "join".toList "C1".toList]) ∨
          (({ initState with Players := some ["A".toList] } : GameState).ShouldJoin.1
              = false ∧ s1.WaitTime = 3000 ∧ s1.MinWaitTime = 1000 ∧ out = [])) :=
  game_starting_wins asciiCase
    ⟨"<@hot potato starting in 5 seconds - message x> is the winner!".toList,
      "C1".toList, "U9".toList, "ME".toList⟩ 0
    { initState with Players := some ["A".toList] } (by decide)

/-- C18, against the claim as written. The game-starting pattern is not
anchored, so a text matched by the possession pattern can be matched by it too,
and so can a text matched by the penalty pattern. -/
theorem possession_and_penalty_overlap_game_starting :
    ((possessionRegex
          "<@hot potato starting in 5 seconds - message x> has the potato".toList).isSome
        = true ∧
      isGameStarting
          "<@hot potato starting in 5 seconds - message x> has the potato".toList
        = true) ∧
      ((penaltyRegex
          "naughty <@a>, hot potato starting in 5 seconds - message x".toList).isSome
        = true ∧
      isGameStarting "naughty <@a>, hot potato starting in 5 seconds - message x".toList
        = true) := by
  decide

/-- C18, amended. A text matched by the possession pattern or by the penalty
pattern is matched neither by the roster pattern nor by the round-end
pattern. -/
theorem possession_and_penalty_exclude_roster_and_end (text : Str)
    (h : (possessionRegex text).isSome = true ∨ (penaltyRegex text).isSome = true) :
    playerRegex text = none ∧ endingRegex text = none := by
  rcases h with h | h
  · obtain ⟨X, hX⟩ := Option.isSome_iff_exists.mp h
    exact ⟨(possession_excludes text X hX).1, (possession_excludes text X hX).2.1⟩
  · obtain ⟨X, hX⟩ := Option.isSome_iff_exists.mp h
    exact ⟨(penalty_excludes text X hX).1, (penalty_excludes text X hX).2.1⟩

/-- C18, amended, at a possession message. -/
theorem possession_and_penalty_exclude_roster_and_end_witness :
    playerRegex "<@a> has the potato".toList = none ∧
      endingRegex "<@a> has the potato".toList = none :=
  possession_and_penalty_exclude_roster_and_end "<@a> has the potato".toList
    (Or.inl (by decide))

/-- C19, against the claim as written. No text is matched by the possession
pattern and by the penalty pattern: both are anchored at the start, one begins
with `<@` and the other with `naughty <@`. -/
theorem no_text_matches_possession_and_penalty :
    ¬ ∃ text : Str,
      (possessionRegex text).isSome = true ∧ (penaltyRegex text).isSome = true := by
  rintro ⟨text, h1, h2⟩
  obtain ⟨X, hX⟩ := Option.isSome_iff_exists.mp h1
  rw [(possession_excludes text X hX).2.2] at h2
  simp at h2

/-- C19, amended. The two checks exclude each other: on a text that the
possession pattern matches `gotPenalty` returns false and changes nothing, and
on a text that the penalty pattern matches `checkPossession` returns false and
changes nothing. -/
theorem possession_and_penalty_exclusive (ct : CaseTables) (text me : Str)
    (s : GameState) :
    ((possessionRegex text).isSome = true →
        penaltyRegex text = none ∧ gotPenalty ct text me s = (false, s)) ∧
      ((penaltyRegex text).isSome = true →
        possessionRegex text = none ∧ checkPossession ct text me s = (false, s)) := by
  constructor
  · intro h
    obtain ⟨X, hX⟩ := Option.isSome_iff_exists.mp h
    have hn := (possession_excludes text X hX).2.2
    exact ⟨hn, gotPenalty_none ct text me s hn⟩
  · intro h
    obtain ⟨X, hX⟩ := Option.isSome_iff_exists.mp h
    have hn := (penalty_excludes text X hX).2.2
    exact ⟨hn, checkPossession_none ct text me s hn⟩

/-- C19, amended, at a possession message and at a penalty message that name
the bot. -/
theorem possession_and_penalty_exclusive_witness :
    (penaltyRegex "<@me> has the potato".toList = none ∧
        gotPenalty asciiCase "<@me> has the potato".toList "ME".toList initState =
          (false, initState)) ∧
      (possessionRegex "naughty <@me>, too early".toList = none ∧
        checkPossession asciiCase "naughty <@me>, too early".toList "ME".toList
          initState = (false, initState)) :=
  ⟨(possession_and_penalty_exclusive asciiCase "<@me> has the potato".toList
      "ME".toList initState).1 (by decide),
    (possession_and_penalty_exclusive asciiCase "naughty <@me>, too early".toList
      "ME".toList initState).2 (by decide)⟩

/-- C20, against the claim as written. A bot whose identifier is the lower-case
`me` does not recognise itself in `<@me>`: the group is upper-cased, the
identifier is not. -/
theorem lower_case_self_not_recognised :
    sameUpToCase asciiCase "me".toList "me".toList ∧
      (checkPossession asciiCase "<@me> has the potato".toList "me".toList
        initState).1 = false ∧
      (gotPenalty asciiCase "naughty <@me>, too early".toList "me".toList
        initState).1 = false ∧
      gameResult asciiCase "<@me> is the winner!".toList "me".toList = -1 :=
  ⟨rfl, by decide, by decide, by decide⟩

/-- C20, amended. For a bot whose identifier is its own upper-case form, on a
text `<@X> has the potato` `checkPossession` returns true exactly when `X` is
the identifier up to letter case; the same holds for `gotPenalty` and the group
of the penalty pattern and for `gameResult` returning 1 and the group of the
round-end pattern. -/
theorem self_recognition (ct : CaseTables) (text me X : Str) (s : GameState)
    (hme : ToUpper ct me = me) :
    (possessionRegex text = some X →
        ((checkPossession ct text me s).1 = true ↔ sameUpToCase ct X me)) ∧
      (penaltyRegex text = some X →
        ((gotPenalty ct text me s).1 = true ↔ sameUpToCase ct X me)) ∧
      (endingRegex text = some X →
        (gameResult ct text me = 1 ↔ sameUpToCase ct X me)) := by
  unfold sameUpToCase
  rw [hme]
  refine ⟨fun h => ?_, fun h => ?_, fun h => ?_⟩
  · rw [checkPossession_hit ct text me X s h]
    simp
  · by_cases hX : ToUpper ct X = me
    · rw [gotPenalty_hit ct text me X s h hX]
      simp [hX]
    · rw [gotPenalty_miss ct text me s (by
        rintro ⟨Y, hY, hY2⟩
        rw [h] at hY
        simp only [Option.some.injEq] at hY
        exact hX (hY ▸ hY2))]
      simp [hX]
  · unfold gameResult
    simp only [h]
    by_cases hX : ToUpper ct X = me
    · simp [hX]
    · simp [hX]

/-- C20, amended, at the bot `ME` named as `<@Me>`. -/
theorem self_recognition_witness :
    (checkPossession asciiCase "<@Me> has the potato".toList "ME".toList
        initState).1 = true ∧
      (gotPenalty asciiCase "naughty <@Me>, too early".toList "ME".toList
        initState).1 = true ∧
      gameResult asciiCase "<@Me> is the winner!".toList "ME".toList = 1 :=
  ⟨((self_recognition asciiCase "<@Me> has the potato".toList "ME".toList
      "Me".toList initState (by decide)).1 (by decide)).mpr (by
        unfold sameUpToCase
        decide),
    ((self_recognition asciiCase "naughty <@Me>, too early".toList "ME".toList
      "Me".toList initState (by decide)).2.1 (by decide)).mpr (by
        unfold sameUpToCase
        decide),
    ((self_recognition asciiCase "<@Me> is the winner!".toList "ME".toList
      "Me".toList initState (by decide)).2.2 (by decide)).mpr (by
        unfold sameUpToCase
        decide)⟩

end MasherBot
